import Mathlib

/-!
# ddfilecopy: the filter, enumeration and copy loop of `projects/ddfilecopy/main.cpp`

A shallow embedding of `main.cpp`.  Strings (`std::wstring`) are lists of
characters.  The functions of the `ddbase` library that `main.cpp` calls
(`ddstr::strwildcard`, `ddpath::join`, `dddir::is_dir`, `dddir::enum_dir`,
`ddfile::file_size`, `dddir::copy_path`, `last_error_msgw`) are not part of
`main.cpp`; they are the fields of the structure `ddbase`, so that every
theorem stated for an arbitrary `env : ddbase` holds whatever the library
does.  Signed 64 bit and 32 bit integers are integers reduced to their range
(`to_s64`, `to_s32`).  Console output is the list of the `log` calls made,
each with its colour and the arguments of its format string; clock readings
are left out.
-/

namespace NSP_DD

/-- A `std::wstring`: the sequence of its characters. -/
abbrev wstring := List Char

/-- Reduction of an integer to the range of `s64`, [-2^63, 2^63). -/
def to_s64 (x : Int) : Int :=
  (x + 9223372036854775808) % 18446744073709551616 - 9223372036854775808

/-- Reduction of an integer to the range of `s32`, [-2^31, 2^31): the cast
`(s32)` of line 161. -/
def to_s32 (x : Int) : Int :=
  (x + 2147483648) % 4294967296 - 2147483648

/-- Addition of two `s64` values (`+=` and `++` on `s64`). -/
def s64_add (a b : Int) : Int := to_s64 (a + b)

/-- The `ddbase` library functions called by `main.cpp`.

* `strwildcard src pat`: `ddstr::strwildcard`.
* `join l r`: `ddpath::join`.
* `is_dir p`: `dddir::is_dir`.
* `enum_dir p`: the entries `(full_path, is_dir)` that `dddir::enum_dir`
  hands to its callback, in order.  The callback of `copy_file` returns
  `false` on every path, so the entries visited do not depend on it.
* `file_size p`: `ddfile::file_size`, an `s64`.
* `copy_path i src dst`: the result of the call of `dddir::copy_path` made in
  iteration `i` of the copy loop (the file system changes between calls, so
  the result may depend on `i`).
* `last_error_msgw i`: the text of `last_error_msgw(::GetLastError())` in
  iteration `i`.
* `permille copied all`: the value of
  `(int)((double)copied / (double)all * 1000)` for a divisor `all` other
  than zero; the rounding of `double` is not modelled. -/
structure ddbase where
  strwildcard : wstring → wstring → Bool
  join : wstring → wstring → wstring
  is_dir : wstring → Bool
  enum_dir : wstring → List (wstring × Bool)
  file_size : wstring → Int
  copy_path : Nat → wstring → wstring → Bool
  last_error_msgw : Nat → wstring
  permille : Int → Int → Int

/-! ## Models of the `ddstr` and `ddpath` helpers used on concrete inputs -/

/-- Modelled from the spec: `ddstr::replace` (ddbase, not in `main.cpp`),
replacing every occurrence of `find` in the string by `rep`, left to right.
The first argument counts the characters of a matched occurrence still to be
dropped. -/
def replace_aux (find rep : wstring) : Nat → wstring → wstring
  | _, [] => []
  | skip + 1, _ :: s => replace_aux find rep skip s
  | 0, c :: s =>
    if find ≠ [] ∧ find.isPrefixOf (c :: s) = true then
      rep ++ replace_aux find rep (find.length - 1) s
    else c :: replace_aux find rep 0 s

/-- Modelled from the spec: `ddstr::replace(str, find, rep)`. -/
def ddstr_replace (str find rep : wstring) : wstring :=
  replace_aux find rep 0 str

/-- Modelled from the spec: `ddstr::split` (ddbase, not in `main.cpp`),
"split on whitespace into individual patterns": the pieces of the string
between occurrences of `sep`, empty pieces dropped.  `cur` is the piece being
read, the first argument counts the characters of a matched separator still
to be dropped. -/
def split_aux (sep : wstring) : Nat → wstring → wstring → List wstring
  | _, cur, [] => if cur = [] then [] else [cur]
  | skip + 1, cur, _ :: s => split_aux sep skip cur s
  | 0, cur, c :: s =>
    if sep ≠ [] ∧ sep.isPrefixOf (c :: s) = true then
      (if cur = [] then [] else [cur]) ++ split_aux sep (sep.length - 1) [] s
    else split_aux sep 0 (cur ++ [c]) s

/-- Modelled from the spec: `ddstr::split(str, sep, out)`. -/
def ddstr_split (str sep : wstring) : List wstring :=
  split_aux sep 0 [] str

/-- Modelled from the spec: `ddstr::beginwith` (ddbase, not in `main.cpp`),
"the next token that begins with `-`". -/
def ddstr_beginwith (str head : wstring) : Bool :=
  head.isPrefixOf str

/-- True when the continuation accepts some suffix of the string: what a
`*` of a wildcard pattern does before the rest of the pattern. -/
def any_suffix (k : wstring → Bool) : wstring → Bool
  | [] => k []
  | c :: s => k (c :: s) || any_suffix k s

/-- Modelled from the spec: `ddstr::strwildcard` (ddbase, not in `main.cpp`),
"`*` matches zero or more arbitrary characters and `?` matches exactly one
character", the whole string being matched.  The pattern comes first here so
that the recursion is on the pattern. -/
def wildcard_pat : wstring → wstring → Bool
  | [], s => s.isEmpty
  | p :: ps, s =>
    if p = '*' then any_suffix (wildcard_pat ps) s
    else match s with
      | [] => false
      | c :: cs => (p = '?' || c = p) && wildcard_pat ps cs

/-- Modelled from the spec: `ddstr::strwildcard(src, pattern)`. -/
def ddstr_strwildcard (src pattern : wstring) : Bool :=
  wildcard_pat pattern src

/-- Modelled from the spec: `ddpath::join` (ddbase, not in `main.cpp`),
"joining the remainder onto the destination root" with one path separator
`/` between the two. -/
def ddpath_join (l r : wstring) : wstring :=
  l ++ '/' :: r

/-- The result of `std::wstring::substr(pos)`: the characters from `pos` on; `none` stands
for the `std::out_of_range` thrown when `pos` exceeds the length. -/
def substr (s : wstring) (pos : Nat) : Option wstring :=
  if pos ≤ s.length then some (s.drop pos) else none

/-! ## `main.cpp` -/

/-- The initial value of the global: `static s32 s_result = 1;` (line 13). -/
def s_result : Int := 1

/-- Lines 15-25: the separators `,` and `;` are replaced by a blank, the
string is split at blanks and the pieces are appended to `vec`. -/
def push_filter_str (vec : List wstring) (str : wstring) : List wstring :=
  let common_str := [",".toList, ";".toList].foldl
    (fun acc it => ddstr_replace acc it " ".toList) str
  vec ++ ddstr_split common_str " ".toList

/-- Lines 27-35: true when `src` matches one of the patterns. -/
def str_match (env : ddbase) (src : wstring) : List wstring → Bool
  | [] => false
  | it :: cmps => if env.strwildcard src it then true else str_match env src cmps

/-- Lines 37-42. -/
structure ddfile_info where
  src_path : wstring
  dst_path : wstring
  file_size : Int
deriving DecidableEq

/-- The colours used by `main.cpp`. -/
inductive ddconsole_color where
  | gray
  | green
  | red
deriving DecidableEq

/-- The text of a `log` call: a ready string, or the arguments handed to
`ddstr::format` for one of the format strings of `copy_file` (clock readings
left out).  `precent` of `copy_complete` is `none` when the conversion of
line 140 has no defined value. -/
inductive log_str where
  | text (s : wstring)
  | file_count_all_size (file_count all_size : Int)
  | copy_complete (index total : Nat) (file_size copied_size all_size : Int)
      (precent : Option Int) (src_path : wstring)
  | total_files (file_count : Int)
  | copy_successful (file_count : Int) (errors : Nat)
  | copy_failure_count (errors : Nat)
  | time_used
deriving DecidableEq

/-- One call of `log` (lines 44-47). -/
structure log_line where
  color : ddconsole_color
  str : log_str
deriving DecidableEq

/-- The variables the callback of `enum_dir` captures by reference. -/
structure enum_locals where
  file_infos : List ddfile_info
  all_size : Int
  file_count : Int
deriving DecidableEq

/-- What one call of the callback leaves: the captured variables, and whether
the call ended by the exception of `substr` instead of returning. -/
structure visit where
  locals : enum_locals
  thrown : Bool
deriving DecidableEq

/-- Lines 68-95, the callback handed to `dddir::enum_dir`. -/
def enum_callback (env : ddbase) (src_path dst_path : wstring)
    (includes excludes : List wstring) (skip_empty_dir : Bool)
    (st : enum_locals) (full_path : wstring) (is_dir : Bool) : visit :=
  if !includes.isEmpty && !str_match env full_path includes then ⟨st, false⟩
  else if !excludes.isEmpty && str_match env full_path excludes then ⟨st, false⟩
  else if is_dir && skip_empty_dir then ⟨st, false⟩
  else
    -- lines 85-87: the record is created and pushed before line 88 runs
    match substr full_path (src_path.length + 1) with
    | none =>
      ⟨{ st with file_infos := st.file_infos ++ [⟨full_path, [], 0⟩] }, true⟩
    | some rest =>
      if !is_dir then
        let size := env.file_size full_path
        ⟨{ file_infos := st.file_infos ++ [⟨full_path, env.join dst_path rest, size⟩],
           all_size := s64_add st.all_size size,
           file_count := s64_add st.file_count 1 }, false⟩
      else
        ⟨{ st with file_infos :=
            st.file_infos ++ [⟨full_path, env.join dst_path rest, 0⟩] }, false⟩

/-- The calls of the callback over the entries of `dddir::enum_dir`, in
order; `none` when a call threw. -/
def enum_dir_visit (cb : enum_locals → wstring → Bool → visit) :
    enum_locals → List (wstring × Bool) → Option enum_locals
  | st, [] => some st
  | st, e :: es =>
    if (cb st e.1 e.2).thrown then none
    else enum_dir_visit cb (cb st e.1 e.2).locals es

/-- Lines 65-118 of `copy_file`: the work items, `all_size` and
`file_count`. -/
def copy_file_enum (env : ddbase) (src_path dst_path : wstring)
    (includes excludes : List wstring) (skip_empty_dir : Bool) :
    Option enum_locals :=
  if env.is_dir src_path then
    enum_dir_visit
      (enum_callback env src_path dst_path includes excludes skip_empty_dir)
      ⟨[], 0, 0⟩ (env.enum_dir src_path)
  else if !includes.isEmpty && !str_match env src_path includes then some ⟨[], 0, 0⟩
  else if !excludes.isEmpty && str_match env src_path excludes then some ⟨[], 0, 0⟩
  else
    let size := env.file_size src_path
    some ⟨[⟨src_path, dst_path, size⟩], s64_add 0 size, s64_add 0 1⟩

/-- Line 140, `(int)((double)copied_size / (double)all_size * 1000)`.  With
`all_size` zero the quotient is a NaN or an infinity and its conversion to
`int` has no defined value: `none`. -/
def precent (env : ddbase) (copied_size all_size : Int) : Option Int :=
  if all_size = 0 then none else some (env.permille copied_size all_size)

/-- The variables the copy loop changes. -/
structure loop_locals where
  copied_size : Int
  error_strs : List wstring
  out : List log_line
deriving DecidableEq

/-- Lines 125-148: the body of the copy loop for item `it` at index `i`;
`total` is `file_infos.size()`. -/
def loop_body (env : ddbase) (total : Nat) (all_size : Int) (detail_log : Bool)
    (i : Nat) (it : ddfile_info) (s : loop_locals) : loop_locals :=
  if !env.copy_path i it.src_path it.dst_path then
    let error_str := "[copy ".toList ++ it.src_path ++ " -> ".toList ++ it.dst_path
      ++ " failure]\r\n".toList ++ env.last_error_msgw i
    { s with
      error_strs := s.error_strs ++ [error_str]
      out := if detail_log then s.out ++ [⟨.red, .text error_str⟩] else s.out }
  else
    let copied_size := s64_add s.copied_size it.file_size
    { s with
      copied_size := copied_size
      out :=
        if detail_log then
          s.out ++ [⟨.green, .copy_complete (i + 1) total it.file_size copied_size
            all_size (precent env copied_size all_size) it.src_path⟩]
        else s.out }

/-- Lines 124-149: the loop over the items from index `i` on. -/
def copy_file_loop (env : ddbase) (total : Nat) (all_size : Int) (detail_log : Bool) :
    Nat → List ddfile_info → loop_locals → loop_locals
  | _, [], s => s
  | i, it :: rest, s =>
    copy_file_loop env total all_size detail_log (i + 1) rest
      (loop_body env total all_size detail_log i it s)

/-- The variables of `copy_file` when it returns, its console output and the
value it stores in the global `s_result`. -/
structure copy_run where
  file_infos : List ddfile_info
  all_size : Int
  file_count : Int
  copied_size : Int
  error_strs : List wstring
  out : List log_line
  s_result : Int
deriving DecidableEq

/-- Lines 49-162; `none` when the enumeration threw. -/
def copy_file (env : ddbase) (src_path dst_path : wstring)
    (includes excludes : List wstring) (skip_empty_dir detail_log : Bool) :
    Option copy_run :=
  match copy_file_enum env src_path dst_path includes excludes skip_empty_dir with
  | none => none
  | some e =>
    let s := copy_file_loop env e.file_infos.length e.all_size detail_log 0 e.file_infos
      ⟨0, [], [⟨.gray, .file_count_all_size e.file_count e.all_size⟩]⟩
    some {
      file_infos := e.file_infos
      all_size := e.all_size
      file_count := e.file_count
      copied_size := s.copied_size
      error_strs := s.error_strs
      out := s.out
        ++ [⟨.green, .total_files e.file_count⟩,
            ⟨.green, .copy_successful e.file_count s.error_strs.length⟩]
        ++ (if s.error_strs.isEmpty then []
            else ⟨.red, .copy_failure_count s.error_strs.length⟩ ::
              s.error_strs.map (fun it => ⟨.red, .text it⟩))
        ++ [⟨.gray, .time_used⟩]
      s_result := to_s32 s.error_strs.length }

/-- Lines 165-169. -/
def help : List log_line :=
  [⟨.gray, .text ("ddfilecopy.exe src_path dst_path [-skip_empty_dir] "
      ++ "[-include *.h *.cpp] [-exclude *.ink *tmp*] [-detail_log]\r\n").toList⟩,
   ⟨.gray, .text ("* represents zoro or more arbitrary characters; '?' represents one "
      ++ "character (in Unicode, Chinese characters count as two characters)\r\n").toList⟩]

/-- The option variables of `process_cmds` (lines 180-183). -/
structure cmd_options where
  includes : List wstring
  excludes : List wstring
  skip_empty_dir : Bool
  detail_log : Bool
deriving DecidableEq

/-- Where the loop of lines 185-224 is: at its top level, or inside the inner
loop that reads the patterns of `-include` or of `-exclude`. -/
inductive scan_mode where
  | top
  | includes
  | excludes
deriving DecidableEq

/-- Lines 185-224 over the arguments `cmds[3..]`; `none` when `-help` is met.
Inside an inner loop a token that does not begin with `-` is a pattern; one
that does ends the inner loop and is read again at the top level (`--i;
break;`, then `continue`). -/
def cmds_loop : scan_mode → cmd_options → List wstring → Option cmd_options
  | _, o, [] => some o
  | m, o, c :: rest =>
    if m = .includes ∧ ddstr_beginwith c "-".toList = false then
      cmds_loop .includes { o with includes := push_filter_str o.includes c } rest
    else if m = .excludes ∧ ddstr_beginwith c "-".toList = false then
      cmds_loop .excludes { o with excludes := push_filter_str o.excludes c } rest
    else if c = "-help".toList then none
    else if c = "-skip_empty_dir".toList then
      cmds_loop .top { o with skip_empty_dir := true } rest
    else if c = "-detail_log".toList then
      cmds_loop .top { o with detail_log := true } rest
    else if c = "-include".toList then cmds_loop .includes o rest
    else if c = "-exclude".toList then cmds_loop .excludes o rest
    else cmds_loop .top o rest

/-- What `process_cmds` leaves: the console output, the value of the global
`s_result`, and the run of `copy_file` when it was called. -/
structure cmds_run where
  out : List log_line
  s_result : Int
  copy : Option copy_run
deriving DecidableEq

/-- Lines 171-227; `none` when `copy_file` threw. -/
def process_cmds (env : ddbase) (cmds : List wstring) : Option cmds_run :=
  match cmds with
  | _ :: src_path :: dst_path :: rest =>
    match cmds_loop .top ⟨[], [], false, false⟩ rest with
    | none => some ⟨help, s_result, none⟩
    | some o =>
      match copy_file env src_path dst_path o.includes o.excludes
          o.skip_empty_dir o.detail_log with
      | none => none
      | some r => some ⟨r.out, r.s_result, some r⟩
  | _ => some ⟨help, s_result, none⟩

/-- Lines 229-238: the value returned, `cmds` being what
`ddcmd_line_utils::get_cmds` delivers. -/
def ddmain (env : ddbase) (cmds : List wstring) : Option Int :=
  (process_cmds env cmds).map (fun r => r.s_result)

/-! ## Vocabulary of the statements -/

/-- The items whose copy succeeds, each with its index in the loop, for a run
of the loop that starts at index `i`. -/
def copied_items (env : ddbase) (i : Nat) (items : List ddfile_info) :
    List (Nat × ddfile_info) :=
  (items.enumFrom i).filter (fun p => env.copy_path p.1 p.2.src_path p.2.dst_path)

/-- The items whose copy fails, each with its index in the loop. -/
def failed_items (env : ddbase) (i : Nat) (items : List ddfile_info) :
    List (Nat × ddfile_info) :=
  (items.enumFrom i).filter (fun p => !env.copy_path p.1 p.2.src_path p.2.dst_path)

/-- The sum of the sizes of a list of items. -/
def total_size (items : List ddfile_info) : Int :=
  (items.map (fun it => it.file_size)).sum

/-! ## A small file system for the examples -/

/-- A `ddbase` over a directory `root` whose enumeration visits `entries`:
the wildcard matcher and the join are the models above, `size` gives the file
sizes, and the copy of a path succeeds when `copy_ok` holds for it. -/
def sample_fs (root : wstring) (entries : List (wstring × Bool))
    (size : wstring → Int) (copy_ok : wstring → Bool) : ddbase where
  strwildcard := ddstr_strwildcard
  join := ddpath_join
  is_dir := fun p => decide (p = root) || entries.any (fun e => decide (e.1 = p) && e.2)
  enum_dir := fun p => if p = root then entries else []
  file_size := size
  copy_path := fun _ src _ => copy_ok src
  last_error_msgw := fun _ => "Access is denied.\r\n".toList
  permille := fun copied all => copied * 1000 / all

/-- The directory `/src` with the files `a` (10 bytes), `b` (20 bytes) and
`c` (30 bytes); the copy of `c` fails. -/
def three_files : ddbase :=
  sample_fs "/src".toList
    [("/src/a".toList, false), ("/src/b".toList, false), ("/src/c".toList, false)]
    (fun p => if p = "/src/a".toList then 10 else if p = "/src/b".toList then 20
      else if p = "/src/c".toList then 30 else 0)
    (fun p => decide (p ≠ "/src/c".toList))

/-- The directory `/src` holding the single empty file `empty.txt`; every
copy succeeds. -/
def one_empty_file : ddbase :=
  sample_fs "/src".toList [("/src/empty.txt".toList, false)] (fun _ => 0) (fun _ => true)

/-- The directory `/src` with the files `secret.txt`, `notes.txt` and
`image.png`, of 7 bytes each; every copy succeeds. -/
def secret_notes_image : ddbase :=
  sample_fs "/src".toList
    [("/src/secret.txt".toList, false), ("/src/notes.txt".toList, false),
      ("/src/image.png".toList, false)]
    (fun _ => 7) (fun _ => true)

/-- The directory `/src` with the empty directory `empty` and the directory
`full` holding the file `a.txt` of 5 bytes, visited parent first; every copy
succeeds. -/
def empty_and_full : ddbase :=
  sample_fs "/src".toList
    [("/src/empty".toList, true), ("/src/full".toList, true),
      ("/src/full/a.txt".toList, false)]
    (fun _ => 5) (fun _ => true)

/-! ## The decision of the enumeration callback -/

theorem str_match_iff (env : ddbase) (src : wstring) (cmps : List wstring) :
    str_match env src cmps = true ↔ ∃ p ∈ cmps, env.strwildcard src p = true := by
  induction cmps with
  | nil => simp [str_match]
  | cons it cmps ih =>
    by_cases h : env.strwildcard src it = true
    · simp [str_match, h]
    · simp [str_match, h, ih]

theorem include_guard_iff (env : ddbase) (src : wstring) (includes : List wstring) :
    (!includes.isEmpty && !str_match env src includes) = false ↔
      (includes = [] ∨ ∃ p ∈ includes, env.strwildcard src p = true) := by
  rw [← str_match_iff]
  cases includes <;> cases h : str_match env src _ <;> simp_all [str_match]

theorem str_match_false_iff (env : ddbase) (src : wstring) (cmps : List wstring) :
    str_match env src cmps = false ↔ ∀ p ∈ cmps, env.strwildcard src p = false := by
  rw [← Bool.not_eq_true, str_match_iff]
  simp

theorem exclude_guard_iff (env : ddbase) (src : wstring) (excludes : List wstring) :
    (!excludes.isEmpty && str_match env src excludes) = false ↔
      (excludes = [] ∨ ∀ p ∈ excludes, env.strwildcard src p = false) := by
  rw [← str_match_false_iff]
  cases excludes <;> cases h : str_match env src _ <;> simp_all [str_match]

theorem enum_callback_reject (env : ddbase) (src_path dst_path : wstring)
    (includes excludes : List wstring) (skip_empty_dir : Bool)
    (st : enum_locals) (full_path : wstring) (is_dir : Bool)
    (h : (!includes.isEmpty && !str_match env full_path includes) = true ∨
      (!excludes.isEmpty && str_match env full_path excludes) = true ∨
      (is_dir && skip_empty_dir) = true) :
    enum_callback env src_path dst_path includes excludes skip_empty_dir
      st full_path is_dir = ⟨st, false⟩ := by
  unfold enum_callback
  rcases h with h | h | h
  · rw [if_pos h]
  · split
    · rfl
    · rfl
  · split
    · rfl
    · split
      · rfl
      · rfl

theorem enum_callback_accept (env : ddbase) (src_path dst_path : wstring)
    (includes excludes : List wstring) (skip_empty_dir : Bool)
    (st : enum_locals) (full_path : wstring) (is_dir : Bool)
    (h1 : (!includes.isEmpty && !str_match env full_path includes) = false)
    (h2 : (!excludes.isEmpty && str_match env full_path excludes) = false)
    (h3 : (is_dir && skip_empty_dir) = false) :
    ∃ info, (enum_callback env src_path dst_path includes excludes skip_empty_dir
        st full_path is_dir).locals.file_infos = st.file_infos ++ [info]
      ∧ info.src_path = full_path := by
  unfold enum_callback
  rw [h1, h2, h3]
  simp only [Bool.false_eq_true, if_false]
  split
  · exact ⟨_, rfl, rfl⟩
  · split
    · exact ⟨_, rfl, rfl⟩
    · exact ⟨_, rfl, rfl⟩

/-- C1: in the callback of the directory enumeration, a work item is appended
for the entry exactly when (the include list is empty or the full path matches
an include pattern) and (the exclude list is empty or the full path matches no
exclude pattern) and not (the entry is a directory and skip_empty_dir is set);
the item carries the entry's full path; otherwise nothing changes; and a match
of an exclude pattern rejects the entry whatever the include list says. -/
theorem enum_callback_creates_iff (env : ddbase) (src_path dst_path : wstring)
    (includes excludes : List wstring) (skip_empty_dir : Bool)
    (st : enum_locals) (full_path : wstring) (is_dir : Bool) :
    ((∃ info, (enum_callback env src_path dst_path includes excludes skip_empty_dir
          st full_path is_dir).locals.file_infos = st.file_infos ++ [info]
        ∧ info.src_path = full_path) ↔
      ((includes = [] ∨ ∃ p ∈ includes, env.strwildcard full_path p = true) ∧
       (excludes = [] ∨ ∀ p ∈ excludes, env.strwildcard full_path p = false) ∧
       ¬ (is_dir = true ∧ skip_empty_dir = true))) ∧
    ((¬ ∃ info, (enum_callback env src_path dst_path includes excludes skip_empty_dir
          st full_path is_dir).locals.file_infos = st.file_infos ++ [info]) →
      enum_callback env src_path dst_path includes excludes skip_empty_dir
          st full_path is_dir = ⟨st, false⟩) ∧
    ((∃ p ∈ excludes, env.strwildcard full_path p = true) →
      enum_callback env src_path dst_path includes excludes skip_empty_dir
          st full_path is_dir = ⟨st, false⟩) := by
  have hne : ∀ (l : List ddfile_info) (x : ddfile_info), l ≠ l ++ [x] := by
    intro l x h
    have := congrArg List.length h
    simp at this
  have hi := include_guard_iff env full_path includes
  have he := exclude_guard_iff env full_path excludes
  by_cases hrej : (!includes.isEmpty && !str_match env full_path includes) = true ∨
      (!excludes.isEmpty && str_match env full_path excludes) = true ∨
      (is_dir && skip_empty_dir) = true
  · have hcb := enum_callback_reject env src_path dst_path includes excludes
      skip_empty_dir st full_path is_dir hrej
    rw [hcb]
    refine ⟨⟨fun ⟨info, h, _⟩ => absurd h (hne _ _), fun ⟨a, b, c⟩ => ?_⟩,
      fun _ => rfl, fun _ => rfl⟩
    exfalso
    rcases hrej with h | h | h
    · rw [hi.mpr a] at h
      exact Bool.false_ne_true h
    · rw [he.mpr b] at h
      exact Bool.false_ne_true h
    · exact c (by simpa using h)
  · simp only [not_or, Bool.not_eq_true] at hrej
    obtain ⟨h1, h2, h3⟩ := hrej
    obtain ⟨info, hinfo, hsrc⟩ := enum_callback_accept env src_path dst_path includes
      excludes skip_empty_dir st full_path is_dir h1 h2 h3
    refine ⟨⟨fun _ => ⟨hi.mp h1, he.mp h2, by simpa using h3⟩, fun _ => ⟨info, hinfo, hsrc⟩⟩,
      fun hno => absurd ⟨info, hinfo⟩ hno, fun ⟨p, hp, hm⟩ => ?_⟩
    exfalso
    rcases he.mp h2 with h | h
    · rw [h] at hp
      simp at hp
    · rw [h p hp] at hm
      exact Bool.false_ne_true hm

/-! ## The copy loop -/

theorem to_s64_of_range (x : Int) (h1 : -9223372036854775808 ≤ x)
    (h2 : x < 9223372036854775808) : to_s64 x = x := by
  unfold to_s64
  omega

theorem to_s32_of_range (x : Int) (h1 : -2147483648 ≤ x) (h2 : x < 2147483648) :
    to_s32 x = x := by
  unfold to_s32
  omega

theorem to_s64_add_left (a b : Int) : to_s64 (to_s64 a + b) = to_s64 (a + b) := by
  unfold to_s64
  omega

theorem to_s64_idem (a : Int) : to_s64 (to_s64 a) = to_s64 a := by
  unfold to_s64
  omega

theorem total_size_cons (it : ddfile_info) (items : List ddfile_info) :
    total_size (it :: items) = it.file_size + total_size items := by
  simp [total_size]

theorem total_size_append (a b : List ddfile_info) :
    total_size (a ++ b) = total_size a + total_size b := by
  simp [total_size]

theorem total_size_nonneg (items : List ddfile_info)
    (h : ∀ it ∈ items, 0 ≤ it.file_size) : 0 ≤ total_size items := by
  induction items with
  | nil => simp [total_size]
  | cons it items ih =>
    rw [total_size_cons]
    have h1 := h it (List.mem_cons_self _ _)
    have h2 := ih (fun x hx => h x (List.mem_cons_of_mem _ hx))
    omega

theorem copy_file_loop_append (env : ddbase) (total : Nat) (all_size : Int)
    (detail_log : Bool) (a b : List ddfile_info) (i : Nat) (s : loop_locals) :
    copy_file_loop env total all_size detail_log i (a ++ b) s =
      copy_file_loop env total all_size detail_log (i + a.length) b
        (copy_file_loop env total all_size detail_log i a s) := by
  induction a generalizing i s with
  | nil => simp [copy_file_loop]
  | cons it a ih =>
    show copy_file_loop env total all_size detail_log (i + 1) (a ++ b) _ = _
    rw [ih, List.length_cons]
    show _ = copy_file_loop env total all_size detail_log _ b
      (copy_file_loop env total all_size detail_log (i + 1) a _)
    congr 1
    omega

theorem copied_items_cons (env : ddbase) (i : Nat) (it : ddfile_info)
    (items : List ddfile_info) :
    copied_items env i (it :: items) =
      if env.copy_path i it.src_path it.dst_path = true
      then (i, it) :: copied_items env (i + 1) items
      else copied_items env (i + 1) items := by
  simp [copied_items, List.enumFrom, List.filter_cons]

theorem failed_items_cons (env : ddbase) (i : Nat) (it : ddfile_info)
    (items : List ddfile_info) :
    failed_items env i (it :: items) =
      if env.copy_path i it.src_path it.dst_path = true
      then failed_items env (i + 1) items
      else (i, it) :: failed_items env (i + 1) items := by
  by_cases h : env.copy_path i it.src_path it.dst_path = true <;>
    simp [failed_items, List.enumFrom, List.filter_cons, h]

theorem copied_failed_length (env : ddbase) (i : Nat) (items : List ddfile_info) :
    (copied_items env i items).length + (failed_items env i items).length
      = items.length := by
  induction items generalizing i with
  | nil => simp [copied_items, failed_items]
  | cons it items ih =>
    rw [copied_items_cons, failed_items_cons]
    have := ih (i + 1)
    by_cases h : env.copy_path i it.src_path it.dst_path = true <;>
      simp [h] <;> omega

theorem copied_items_size_bounds (env : ddbase) (i : Nat) (items : List ddfile_info)
    (h : ∀ it ∈ items, 0 ≤ it.file_size) :
    0 ≤ ((copied_items env i items).map (fun p => p.2.file_size)).sum ∧
    ((copied_items env i items).map (fun p => p.2.file_size)).sum ≤ total_size items := by
  induction items generalizing i with
  | nil => simp [copied_items, total_size]
  | cons it items ih =>
    rw [copied_items_cons, total_size_cons]
    have h1 := h it (List.mem_cons_self _ _)
    have h2 := ih (i + 1) (fun x hx => h x (List.mem_cons_of_mem _ hx))
    by_cases hc : env.copy_path i it.src_path it.dst_path = true <;>
      simp [hc] <;> omega

theorem copy_file_loop_errors (env : ddbase) (total : Nat) (all_size : Int)
    (detail_log : Bool) (items : List ddfile_info) (i : Nat) (s : loop_locals) :
    (copy_file_loop env total all_size detail_log i items s).error_strs.length =
      s.error_strs.length + (failed_items env i items).length := by
  induction items generalizing i s with
  | nil => simp [copy_file_loop, failed_items]
  | cons it items ih =>
    rw [copy_file_loop, ih, failed_items_cons]
    by_cases hc : env.copy_path i it.src_path it.dst_path = true
    · simp [loop_body, hc]
    · simp [loop_body, hc]
      omega

theorem copy_file_loop_copied (env : ddbase) (total : Nat) (all_size : Int)
    (detail_log : Bool) (items : List ddfile_info) (i : Nat) (s : loop_locals)
    (h0 : 0 ≤ s.copied_size) (hsize : ∀ it ∈ items, 0 ≤ it.file_size)
    (hfit : s.copied_size + total_size items < 9223372036854775808) :
    (copy_file_loop env total all_size detail_log i items s).copied_size =
      s.copied_size + ((copied_items env i items).map (fun p => p.2.file_size)).sum := by
  induction items generalizing i s with
  | nil => simp [copy_file_loop, copied_items]
  | cons it items ih =>
    rw [total_size_cons] at hfit
    have h1 := hsize it (List.mem_cons_self _ _)
    have h2 := total_size_nonneg items (fun x hx => hsize x (List.mem_cons_of_mem _ hx))
    rw [copy_file_loop, copied_items_cons]
    by_cases hc : env.copy_path i it.src_path it.dst_path = true
    · have hb : (loop_body env total all_size detail_log i it s).copied_size
          = s.copied_size + it.file_size := by
        simp only [loop_body, hc, Bool.not_true, Bool.false_eq_true, if_false, s64_add]
        exact to_s64_of_range _ (by omega) (by omega)
      rw [ih (i + 1) _ (by rw [hb]; omega)
        (fun x hx => hsize x (List.mem_cons_of_mem _ hx)) (by rw [hb]; omega), hb]
      simp [hc]
      omega
    · have hb : (loop_body env total all_size detail_log i it s).copied_size
          = s.copied_size := by
        simp [loop_body, hc]
      rw [ih (i + 1) _ (by rw [hb]; omega)
        (fun x hx => hsize x (List.mem_cons_of_mem _ hx)) (by rw [hb]; omega), hb]
      simp [hc]

theorem copy_file_loop_copied_s64 (env : ddbase) (total : Nat) (all_size : Int)
    (detail_log : Bool) (items : List ddfile_info) (i : Nat) (s : loop_locals)
    (h0 : to_s64 s.copied_size = s.copied_size) :
    (copy_file_loop env total all_size detail_log i items s).copied_size =
      to_s64 (s.copied_size
        + ((copied_items env i items).map (fun p => p.2.file_size)).sum) := by
  induction items generalizing i s with
  | nil => simp [copy_file_loop, copied_items, h0]
  | cons it items ih =>
    rw [copy_file_loop, copied_items_cons]
    by_cases hc : env.copy_path i it.src_path it.dst_path = true
    · have hb : (loop_body env total all_size detail_log i it s).copied_size
          = to_s64 (s.copied_size + it.file_size) := by
        simp only [loop_body, hc, Bool.not_true, Bool.false_eq_true, if_false, s64_add]
      rw [ih (i + 1) _ (by rw [hb, to_s64_idem]), hb, to_s64_add_left]
      simp [hc, add_assoc]
    · have hb : (loop_body env total all_size detail_log i it s).copied_size
          = s.copied_size := by
        simp [loop_body, hc]
      rw [ih (i + 1) _ (by rw [hb, h0]), hb]
      simp [hc]

/-- C2: when the copy loop of copy_file has run over a list of work items,
whatever the outcome of each copy_path call, copied_size is the sum, in s64
arithmetic, of file_size over exactly the items whose copy succeeded (the sum
itself when the sizes are byte counts with a total below 2^63), the number of
error messages is the number of items whose copy failed, and the number of
error messages plus the number of items copied is the number of work items. -/
theorem copy_file_loop_statistics (env : ddbase) (file_infos : List ddfile_info)
    (all_size : Int) (detail_log : Bool) (out : List log_line) :
    (copy_file_loop env file_infos.length all_size detail_log 0 file_infos
        ⟨0, [], out⟩).copied_size
      = to_s64 ((copied_items env 0 file_infos).map (fun p => p.2.file_size)).sum ∧
    ((∀ it ∈ file_infos, 0 ≤ it.file_size) →
      total_size file_infos < 9223372036854775808 →
      (copy_file_loop env file_infos.length all_size detail_log 0 file_infos
          ⟨0, [], out⟩).copied_size
        = ((copied_items env 0 file_infos).map (fun p => p.2.file_size)).sum) ∧
    (copy_file_loop env file_infos.length all_size detail_log 0 file_infos
        ⟨0, [], out⟩).error_strs.length
      = (failed_items env 0 file_infos).length ∧
    (copy_file_loop env file_infos.length all_size detail_log 0 file_infos
        ⟨0, [], out⟩).error_strs.length + (copied_items env 0 file_infos).length
      = file_infos.length := by
  have he := copy_file_loop_errors env file_infos.length all_size detail_log
    file_infos 0 ⟨0, [], out⟩
  have hw := copy_file_loop_copied_s64 env file_infos.length all_size detail_log
    file_infos 0 ⟨0, [], out⟩ (show to_s64 0 = 0 by decide)
  have hl := copied_failed_length env 0 file_infos
  simp only [List.length_nil, Nat.zero_add, Int.zero_add] at he hw
  refine ⟨hw, fun hsize hfit => ?_, he, ?_⟩
  · have hc := copy_file_loop_copied env file_infos.length all_size detail_log
      file_infos 0 ⟨0, [], out⟩ (le_refl _) hsize (by simpa using hfit)
    simpa using hc
  · rw [he]
    omega

/-! ## The enumeration -/

theorem enum_callback_cases (env : ddbase) (src_path dst_path : wstring)
    (includes excludes : List wstring) (skip_empty_dir : Bool)
    (st : enum_locals) (full_path : wstring) (is_dir : Bool) :
    enum_callback env src_path dst_path includes excludes skip_empty_dir
        st full_path is_dir = ⟨st, false⟩ ∨
    (substr full_path (src_path.length + 1) = none ∧
      enum_callback env src_path dst_path includes excludes skip_empty_dir
        st full_path is_dir
        = ⟨⟨st.file_infos ++ [⟨full_path, [], 0⟩], st.all_size, st.file_count⟩, true⟩) ∨
    (∃ rest, substr full_path (src_path.length + 1) = some rest ∧ is_dir = false ∧
      enum_callback env src_path dst_path includes excludes skip_empty_dir
        st full_path is_dir
        = ⟨⟨st.file_infos ++ [⟨full_path, env.join dst_path rest, env.file_size full_path⟩],
            s64_add st.all_size (env.file_size full_path),
            s64_add st.file_count 1⟩, false⟩) ∨
    (∃ rest, substr full_path (src_path.length + 1) = some rest ∧ is_dir = true ∧
      enum_callback env src_path dst_path includes excludes skip_empty_dir
        st full_path is_dir
        = ⟨⟨st.file_infos ++ [⟨full_path, env.join dst_path rest, 0⟩],
            st.all_size, st.file_count⟩, false⟩) := by
  unfold enum_callback
  split
  · exact Or.inl rfl
  · split
    · exact Or.inl rfl
    · split
      · exact Or.inl rfl
      · split
        · next h => exact Or.inr (Or.inl ⟨h, rfl⟩)
        · next rest h =>
          cases is_dir
          · exact Or.inr (Or.inr (Or.inl ⟨rest, h, rfl, rfl⟩))
          · exact Or.inr (Or.inr (Or.inr ⟨rest, h, rfl, rfl⟩))

theorem substr_of_lt (s : wstring) (n : Nat) (h : n < s.length) :
    substr s (n + 1) = some (s.drop (n + 1)) := by
  unfold substr
  rw [if_pos (by omega)]

theorem enum_callback_not_thrown (env : ddbase) (src_path dst_path : wstring)
    (includes excludes : List wstring) (skip_empty_dir : Bool)
    (st : enum_locals) (full_path : wstring) (is_dir : Bool)
    (h : src_path.length < full_path.length) :
    (enum_callback env src_path dst_path includes excludes skip_empty_dir
        st full_path is_dir).thrown = false := by
  rcases enum_callback_cases env src_path dst_path includes excludes skip_empty_dir
    st full_path is_dir with hc | ⟨hs, _⟩ | ⟨_, _, _, hc⟩ | ⟨_, _, _, hc⟩
  · rw [hc]
  · rw [substr_of_lt _ _ h] at hs
    cases hs
  · rw [hc]
  · rw [hc]

theorem enum_dir_visit_total (env : ddbase) (src_path dst_path : wstring)
    (includes excludes : List wstring) (skip_empty_dir : Bool)
    (es : List (wstring × Bool)) (st : enum_locals)
    (h : ∀ e ∈ es, src_path.length < e.1.length) :
    ∃ r, enum_dir_visit
      (enum_callback env src_path dst_path includes excludes skip_empty_dir) st es
        = some r := by
  induction es generalizing st with
  | nil => exact ⟨st, rfl⟩
  | cons e es ih =>
    unfold enum_dir_visit
    rw [enum_callback_not_thrown env src_path dst_path includes excludes skip_empty_dir
      st e.1 e.2 (h e (List.mem_cons_self _ _))]
    exact ih _ (fun x hx => h x (List.mem_cons_of_mem _ hx))

theorem copy_file_enum_total (env : ddbase) (src_path dst_path : wstring)
    (includes excludes : List wstring) (skip_empty_dir : Bool)
    (h : ∀ e ∈ env.enum_dir src_path, src_path.length < e.1.length) :
    ∃ r, copy_file_enum env src_path dst_path includes excludes skip_empty_dir
      = some r := by
  unfold copy_file_enum
  split
  · exact enum_dir_visit_total env src_path dst_path includes excludes skip_empty_dir
      _ _ h
  · split
    · exact ⟨_, rfl⟩
    · split
      · exact ⟨_, rfl⟩
      · exact ⟨_, rfl⟩

/-- What the enumeration adds to the captured variables: work items of
non-negative size, at most one per entry, and their sizes to `all_size`. -/
theorem enum_dir_visit_spec (env : ddbase) (src_path dst_path : wstring)
    (includes excludes : List wstring) (skip_empty_dir : Bool)
    (hsize : ∀ p, 0 ≤ env.file_size p)
    (es : List (wstring × Bool)) (st r : enum_locals)
    (h : enum_dir_visit
      (enum_callback env src_path dst_path includes excludes skip_empty_dir) st es
        = some r) :
    ∃ more, r.file_infos = st.file_infos ++ more ∧ (∀ it ∈ more, 0 ≤ it.file_size) ∧
      more.length ≤ es.length ∧
      (st.all_size = total_size st.file_infos → 0 ≤ total_size st.file_infos →
        total_size r.file_infos < 9223372036854775808 →
        r.all_size = total_size r.file_infos) := by
  induction es generalizing st with
  | nil =>
    simp only [enum_dir_visit, Option.some.injEq] at h
    subst h
    exact ⟨[], by simp, by simp, by simp, fun h _ _ => h⟩
  | cons e es ih =>
    unfold enum_dir_visit at h
    by_cases hth : (enum_callback env src_path dst_path includes excludes skip_empty_dir
        st e.1 e.2).thrown = true
    · rw [if_pos hth] at h
      cases h
    · rw [if_neg hth] at h
      obtain ⟨more, hm, hnn, hlen, hall⟩ := ih _ h
      rcases enum_callback_cases env src_path dst_path includes excludes skip_empty_dir
        st e.1 e.2 with hc | ⟨_, hc⟩ | ⟨rest, _, _, hc⟩ | ⟨rest, _, _, hc⟩
      · rw [hc] at hm hall
        exact ⟨more, hm, hnn, by simp only [List.length_cons]; omega, hall⟩
      · rw [hc] at hth
        exact absurd rfl hth
      · rw [hc] at hm hall
        simp only [List.append_assoc, List.singleton_append] at hm
        refine ⟨_ :: more, hm, ?_, by simpa using hlen, ?_⟩
        · intro it hit
          rcases List.mem_cons.mp hit with rfl | hit
          · exact hsize _
          · exact hnn it hit
        · intro h1 h2 h3
          have hmore := total_size_nonneg more hnn
          have hsz := hsize e.1
          rw [hm, total_size_append, total_size_cons] at h3
          apply hall
          · simp only [total_size_append, total_size_cons, s64_add]
            rw [h1]
            simp only [total_size, List.map_nil, List.sum_nil, add_zero]
            exact to_s64_of_range _ (by simp only [total_size] at h2 ⊢; omega)
              (by simp only [total_size] at h2 h3 hmore ⊢; omega)
          · rw [total_size_append, total_size_cons]
            simp only [total_size, List.map_nil, List.sum_nil, add_zero] at h2 ⊢
            omega
          · rw [hm, total_size_append, total_size_cons]
            exact h3
      · rw [hc] at hm hall
        simp only [List.append_assoc, List.singleton_append] at hm
        refine ⟨_ :: more, hm, ?_, by simpa using hlen, ?_⟩
        · intro it hit
          rcases List.mem_cons.mp hit with rfl | hit
          · exact le_refl _
          · exact hnn it hit
        · intro h1 h2 h3
          apply hall
          · simp only [total_size_append, total_size_cons]
            rw [h1]
            simp [total_size]
          · rw [total_size_append, total_size_cons]
            simp only [total_size, List.map_nil, List.sum_nil, add_zero] at h2 ⊢
            omega
          · exact h3

theorem copy_file_enum_spec (env : ddbase) (src_path dst_path : wstring)
    (includes excludes : List wstring) (skip_empty_dir : Bool)
    (hsize : ∀ p, 0 ≤ env.file_size p) (r : enum_locals)
    (h : copy_file_enum env src_path dst_path includes excludes skip_empty_dir = some r) :
    (∀ it ∈ r.file_infos, 0 ≤ it.file_size) ∧
    r.file_infos.length ≤ max 1 (env.enum_dir src_path).length ∧
    (total_size r.file_infos < 9223372036854775808 →
      r.all_size = total_size r.file_infos) := by
  unfold copy_file_enum at h
  split at h
  · obtain ⟨more, hm, hnn, hlen, hall⟩ := enum_dir_visit_spec env src_path dst_path
      includes excludes skip_empty_dir hsize _ _ _ h
    simp only [List.nil_append] at hm
    rw [hm]
    refine ⟨hnn, by omega, fun h3 => ?_⟩
    rw [← hm]
    exact hall (by simp [total_size]) (by simp [total_size]) (by rw [hm]; exact h3)
  · have hone : ∀ sz : Int, 0 ≤ sz →
        total_size [(⟨src_path, dst_path, sz⟩ : ddfile_info)] < 9223372036854775808 →
        s64_add 0 sz = total_size [(⟨src_path, dst_path, sz⟩ : ddfile_info)] := by
      intro sz h0 h1
      simp only [total_size, List.map_cons, List.map_nil, List.sum_cons, List.sum_nil,
        add_zero, s64_add, zero_add] at h1 ⊢
      exact to_s64_of_range _ (by omega) h1
    split at h
    · cases h
      exact ⟨by simp, by simp, fun _ => by simp [total_size]⟩
    · split at h
      · cases h
        exact ⟨by simp, by simp, fun _ => by simp [total_size]⟩
      · cases h
        refine ⟨by simpa using hsize src_path, by simp, fun h3 => ?_⟩
        exact hone _ (hsize _) h3

theorem total_size_take_le (items : List ddfile_info)
    (h : ∀ it ∈ items, 0 ≤ it.file_size) (k : Nat) :
    total_size (items.take k) ≤ total_size items := by
  have hsplit := total_size_append (items.take k) (items.drop k)
  rw [List.take_append_drop] at hsplit
  have := total_size_nonneg (items.drop k) (fun x hx => h x (List.mem_of_mem_drop hx))
  omega

/-- C10: when the enumeration of copy_file has produced its work items (file
sizes being byte counts with a total below 2^63), then after any number k of
iterations of the copy loop, whatever calls of copy_path succeeded or failed,
copied_size is at most all_size. -/
theorem copied_size_le_all_size (env : ddbase) (src_path dst_path : wstring)
    (includes excludes : List wstring) (skip_empty_dir detail_log : Bool)
    (e : enum_locals) (out : List log_line)
    (henum : copy_file_enum env src_path dst_path includes excludes skip_empty_dir
      = some e)
    (hsize : ∀ p, 0 ≤ env.file_size p)
    (hfit : total_size e.file_infos < 9223372036854775808) (k : Nat) :
    (copy_file_loop env e.file_infos.length e.all_size detail_log 0
        (e.file_infos.take k) ⟨0, [], out⟩).copied_size ≤ e.all_size := by
  obtain ⟨hnn, _, hall⟩ := copy_file_enum_spec env src_path dst_path includes excludes
    skip_empty_dir hsize e henum
  have hnnk : ∀ it ∈ e.file_infos.take k, 0 ≤ it.file_size :=
    fun it hit => hnn it (List.mem_of_mem_take hit)
  have htake := total_size_take_le e.file_infos hnn k
  have hc := copy_file_loop_copied env e.file_infos.length e.all_size detail_log
    (e.file_infos.take k) 0 ⟨0, [], out⟩ (le_refl _) hnnk
    (by simp only [Int.zero_add]; omega)
  have hb := (copied_items_size_bounds env 0 (e.file_infos.take k) hnnk).2
  rw [hc, hall hfit]
  simp only [Int.zero_add]
  omega

theorem three_files_size_nonneg (p : wstring) : 0 ≤ three_files.file_size p := by
  show (0 : Int) ≤ if p = "/src/a".toList then 10 else if p = "/src/b".toList then 20
      else if p = "/src/c".toList then 30 else 0
  split
  · decide
  · split
    · decide
    · split <;> decide

theorem copied_size_le_all_size_witness :
    (copy_file_loop three_files 3 60 true 0
        [⟨"/src/a".toList, "/dst/a".toList, 10⟩, ⟨"/src/b".toList, "/dst/b".toList, 20⟩]
        ⟨0, [], []⟩).copied_size ≤ 60 :=
  copied_size_le_all_size three_files "/src".toList "/dst".toList [] [] false true
    ⟨[⟨"/src/a".toList, "/dst/a".toList, 10⟩, ⟨"/src/b".toList, "/dst/b".toList, 20⟩,
      ⟨"/src/c".toList, "/dst/c".toList, 30⟩], 60, 3⟩ []
    (by decide) three_files_size_nonneg (by decide) 2

theorem copy_file_loop_statistics_witness :
    (copy_file_loop three_files 3 60 true 0
        [⟨"/src/a".toList, "/dst/a".toList, 10⟩, ⟨"/src/b".toList, "/dst/b".toList, 20⟩,
          ⟨"/src/c".toList, "/dst/c".toList, 30⟩] ⟨0, [], []⟩).copied_size = 30 :=
  (copy_file_loop_statistics three_files
    [⟨"/src/a".toList, "/dst/a".toList, 10⟩, ⟨"/src/b".toList, "/dst/b".toList, 20⟩,
      ⟨"/src/c".toList, "/dst/c".toList, 30⟩] 60 true []).2.1
    (by decide) (by decide)

/-! ## The command line and the exit status -/

theorem cmds_loop_some (rest : List wstring) (m : scan_mode) (o : cmd_options)
    (h : "-help".toList ∉ rest) : ∃ r, cmds_loop m o rest = some r := by
  induction rest generalizing m o with
  | nil => exact ⟨o, rfl⟩
  | cons c rest ih =>
    have hc : c ≠ "-help".toList := fun hc => h (hc ▸ List.mem_cons_self _ _)
    have hr : "-help".toList ∉ rest := fun hr => h (List.mem_cons_of_mem _ hr)
    unfold cmds_loop
    simp only [if_neg hc]
    split_ifs <;> exact ih _ _ hr

theorem copy_file_of_enum (env : ddbase) (src_path dst_path : wstring)
    (includes excludes : List wstring) (skip_empty_dir detail_log : Bool)
    (e : enum_locals)
    (h : copy_file_enum env src_path dst_path includes excludes skip_empty_dir = some e) :
    ∃ r, copy_file env src_path dst_path includes excludes skip_empty_dir detail_log
        = some r ∧
      r.file_infos = e.file_infos ∧ r.all_size = e.all_size ∧
      r.file_count = e.file_count ∧
      r.copied_size = (copy_file_loop env e.file_infos.length e.all_size detail_log 0
        e.file_infos ⟨0, [], [⟨.gray, .file_count_all_size e.file_count e.all_size⟩]⟩
        ).copied_size ∧
      r.error_strs = (copy_file_loop env e.file_infos.length e.all_size detail_log 0
        e.file_infos ⟨0, [], [⟨.gray, .file_count_all_size e.file_count e.all_size⟩]⟩
        ).error_strs ∧
      r.s_result = to_s32 r.error_strs.length := by
  unfold copy_file
  rw [h]
  exact ⟨_, rfl, rfl, rfl, rfl, rfl, rfl, rfl⟩

theorem process_cmds_of_copy (env : ddbase) (exe src_path dst_path : wstring)
    (rest : List wstring) (o : cmd_options) (r : copy_run)
    (ho : cmds_loop .top ⟨[], [], false, false⟩ rest = some o)
    (hr : copy_file env src_path dst_path o.includes o.excludes o.skip_empty_dir
      o.detail_log = some r) :
    process_cmds env (exe :: src_path :: dst_path :: rest)
      = some ⟨r.out, r.s_result, some r⟩ := by
  unfold process_cmds
  simp only [ho, hr]

/-- C3: for a command line with a source and a destination argument and no
-help among the options, over a source whose enumeration hands out full paths
longer than the source path, copy_file runs to its end and the value returned
by ddmain is the number of work items whose copy failed, as an s32 (the number
itself below 2^31), which is 0 when every item was copied; and for the
directory with the files of 10, 20 and 30 bytes where only the copy of the
30 byte file fails the run ends with file_count 3, one error message,
copied_size 30 and the value 1 returned by ddmain. -/
theorem ddmain_exit_status :
    (∀ (env : ddbase) (exe src_path dst_path : wstring) (rest : List wstring),
      "-help".toList ∉ rest →
      (∀ e ∈ env.enum_dir src_path, src_path.length < e.1.length) →
      ∃ o r, cmds_loop .top ⟨[], [], false, false⟩ rest = some o ∧
        copy_file env src_path dst_path o.includes o.excludes o.skip_empty_dir
          o.detail_log = some r ∧
        ddmain env (exe :: src_path :: dst_path :: rest)
          = some (to_s32 (failed_items env 0 r.file_infos).length) ∧
        ((failed_items env 0 r.file_infos).length < 2147483648 →
          ddmain env (exe :: src_path :: dst_path :: rest)
            = some ((failed_items env 0 r.file_infos).length : Int)) ∧
        ((copied_items env 0 r.file_infos).length = r.file_infos.length →
          ddmain env (exe :: src_path :: dst_path :: rest) = some 0)) ∧
    ((process_cmds three_files
          ["ddfilecopy.exe".toList, "/src".toList, "/dst".toList]).map
        (fun p => p.copy.map
          (fun r => (r.file_count, r.error_strs.length, r.copied_size, r.s_result)))
        = some (some (3, 1, 30, 1)) ∧
      ddmain three_files ["ddfilecopy.exe".toList, "/src".toList, "/dst".toList]
        = some 1) := by
  refine ⟨?_, ?_⟩
  · intro env exe src_path dst_path rest hhelp hpaths
    obtain ⟨o, ho⟩ := cmds_loop_some rest .top ⟨[], [], false, false⟩ hhelp
    obtain ⟨e, he⟩ := copy_file_enum_total env src_path dst_path o.includes o.excludes
      o.skip_empty_dir hpaths
    obtain ⟨r, hr, hfi, _, _, _, herrs, hres⟩ := copy_file_of_enum env src_path dst_path
      o.includes o.excludes o.skip_empty_dir o.detail_log e he
    have herr := copy_file_loop_errors env e.file_infos.length e.all_size o.detail_log
      e.file_infos 0 ⟨0, [], [⟨.gray, .file_count_all_size e.file_count e.all_size⟩]⟩
    have hcf := copied_failed_length env 0 e.file_infos
    simp only [List.length_nil, Nat.zero_add] at herr
    rw [← herrs, ← hfi] at herr
    rw [← hfi] at hcf
    have hmain : ddmain env (exe :: src_path :: dst_path :: rest)
        = some (to_s32 (failed_items env 0 r.file_infos).length) := by
      unfold ddmain
      rw [process_cmds_of_copy env exe src_path dst_path rest o r ho hr]
      simp only [Option.map_some', hres, herr]
    refine ⟨o, r, ho, hr, hmain, fun hlt => ?_, fun hall => ?_⟩
    · rw [hmain]
      exact congrArg some (to_s32_of_range _ (by omega) (by omega))
    · rw [hmain]
      have : (failed_items env 0 r.file_infos).length = 0 := by omega
      rw [this]
      rfl
  · exact ⟨by decide, by decide⟩

theorem ddmain_exit_status_witness :
    ∃ o r, cmds_loop .top ⟨[], [], false, false⟩ ["-detail_log".toList] = some o ∧
      copy_file three_files "/src".toList "/dst".toList o.includes o.excludes
        o.skip_empty_dir o.detail_log = some r ∧
      ddmain three_files
          ["ddfilecopy.exe".toList, "/src".toList, "/dst".toList, "-detail_log".toList]
        = some (to_s32 (failed_items three_files 0 r.file_infos).length) ∧
      ((failed_items three_files 0 r.file_infos).length < 2147483648 →
        ddmain three_files
          ["ddfilecopy.exe".toList, "/src".toList, "/dst".toList, "-detail_log".toList]
          = some ((failed_items three_files 0 r.file_infos).length : Int)) ∧
      ((copied_items three_files 0 r.file_infos).length = r.file_infos.length →
        ddmain three_files
          ["ddfilecopy.exe".toList, "/src".toList, "/dst".toList, "-detail_log".toList]
          = some 0) :=
  ddmain_exit_status.1 three_files "ddfilecopy.exe".toList "/src".toList "/dst".toList
    ["-detail_log".toList] (by decide) (by decide)

/-! ## The percentage of the progress line -/

/-- C4: the percentage of line 140 is computed without a guard: with all_size
zero the division has a zero divisor and the percentage has no defined value.
For the directory holding one empty file, copied with -detail_log, the run has
all_size 0 and its progress line carries an undefined percentage. -/
theorem precent_zero_all_size :
    (∀ (env : ddbase) (copied_size : Int), precent env copied_size 0 = none) ∧
    (process_cmds one_empty_file
        ["ddfilecopy.exe".toList, "/src".toList, "/dst".toList, "-detail_log".toList]).map
      (fun p => p.out)
      = some [⟨.gray, .file_count_all_size 1 0⟩,
          ⟨.green, .copy_complete 1 1 0 0 0 none "/src/empty.txt".toList⟩,
          ⟨.green, .total_files 1⟩,
          ⟨.green, .copy_successful 1 0⟩,
          ⟨.gray, .time_used⟩] :=
  ⟨fun _ _ => rfl, by decide⟩

/-! ## Too few arguments -/

/-- C5, as the claim states it, fails: with only a source argument
process_cmds prints the help and copies nothing, and ddmain returns 1, not
0. -/
theorem usage_exit_status_not_zero :
    process_cmds three_files ["ddfilecopy.exe".toList, "/src".toList]
      = some ⟨help, 1, none⟩ ∧
    ddmain three_files ["ddfilecopy.exe".toList, "/src".toList] ≠ some 0 := by
  decide

/-- C5, amended: with fewer than two arguments after the program name
process_cmds prints the usage help and does not call copy_file, and ddmain
returns 1, the initial value of s_result. -/
theorem ddmain_usage (env : ddbase) (cmds : List wstring) (h : cmds.length < 3) :
    process_cmds env cmds = some ⟨help, 1, none⟩ ∧ ddmain env cmds = some 1 := by
  have hp : process_cmds env cmds = some ⟨help, 1, none⟩ := by
    unfold process_cmds
    split
    · simp only [List.length_cons] at h
      omega
    · rfl
  exact ⟨hp, by rw [ddmain, hp]; rfl⟩

theorem ddmain_usage_witness :
    process_cmds one_empty_file ["ddfilecopy.exe".toList] = some ⟨help, 1, none⟩ ∧
    ddmain one_empty_file ["ddfilecopy.exe".toList] = some 1 :=
  ddmain_usage one_empty_file ["ddfilecopy.exe".toList] (by decide)

/-! ## The destination path -/

/-- C6: when the callback creates a work item for an entry whose full path is
the source root S, one separator and a suffix R, the destination path of the
item is join(D, R), D being the destination root, and the call does not throw;
with a join that puts one `/` between its arguments, source root `/a/b`, entry
`/a/b/c/d.txt` and destination root `/x/y` give `/x/y/c/d.txt`. -/
theorem dst_path_join :
    (∀ (env : ddbase) (S D R : wstring) (sep : Char) (includes excludes : List wstring)
        (skip_empty_dir is_dir : Bool) (st : enum_locals) (info : ddfile_info),
      (enum_callback env S D includes excludes skip_empty_dir st (S ++ sep :: R)
          is_dir).locals.file_infos = st.file_infos ++ [info] →
      info.src_path = S ++ sep :: R ∧ info.dst_path = env.join D R ∧
      (enum_callback env S D includes excludes skip_empty_dir st (S ++ sep :: R)
          is_dir).thrown = false) ∧
    (∀ (env : ddbase) (st : enum_locals), env.join = ddpath_join →
      (enum_callback env "/a/b".toList "/x/y".toList [] [] false st
          "/a/b/c/d.txt".toList false).locals.file_infos
        = st.file_infos ++
          [⟨"/a/b/c/d.txt".toList, "/x/y/c/d.txt".toList,
            env.file_size "/a/b/c/d.txt".toList⟩]) := by
  refine ⟨?_, ?_⟩
  · intro env S D R sep includes excludes skip_empty_dir is_dir st info h
    have hsub : substr (S ++ sep :: R) (S.length + 1) = some R := by
      unfold substr
      rw [if_pos (by simp)]
      congr 1
      rw [show S ++ sep :: R = (S ++ [sep]) ++ R by simp]
      exact List.drop_left' (by simp)
    have hne : ∀ (l : List ddfile_info) (x : ddfile_info), l ≠ l ++ [x] := by
      intro l x h
      have := congrArg List.length h
      simp at this
    rcases enum_callback_cases env S D includes excludes skip_empty_dir st
      (S ++ sep :: R) is_dir with hc | ⟨hs, _⟩ | ⟨rest, hs, _, hc⟩ | ⟨rest, hs, _, hc⟩
    · rw [hc] at h
      exact absurd h (hne _ _)
    · rw [hsub] at hs
      cases hs
    · rw [hsub] at hs
      cases hs
      rw [hc] at h ⊢
      have := List.append_cancel_left h
      simp only [List.cons.injEq, and_true] at this
      subst this
      exact ⟨rfl, rfl, rfl⟩
    · rw [hsub] at hs
      cases hs
      rw [hc] at h ⊢
      have := List.append_cancel_left h
      simp only [List.cons.injEq, and_true] at this
      subst this
      exact ⟨rfl, rfl, rfl⟩
  · intro env st hj
    simp [enum_callback, str_match, substr, hj, ddpath_join]

theorem dst_path_join_witness :
    (⟨"/a/b/c".toList, "/x/y/c".toList, 0⟩ : ddfile_info).src_path = "/a/b/c".toList ∧
    (⟨"/a/b/c".toList, "/x/y/c".toList, 0⟩ : ddfile_info).dst_path
      = three_files.join "/x/y".toList "c".toList ∧
    (enum_callback three_files "/a/b".toList "/x/y".toList [] [] false ⟨[], 0, 0⟩
      ("/a/b".toList ++ '/' :: "c".toList) true).thrown = false :=
  dst_path_join.1 three_files "/a/b".toList "/x/y".toList "c".toList '/' [] [] false true
    ⟨[], 0, 0⟩ ⟨"/a/b/c".toList, "/x/y/c".toList, 0⟩ (by decide)

/-! ## Include and exclude patterns on full paths -/

/-- C7, as the claim states it, fails: with include `*.txt` and exclude
`secret*` over the directory `/src`, the file `secret.txt` is not rejected; it
gets a work item like `notes.txt`, because the pattern `secret*` is compared
with the full path `/src/secret.txt`. -/
theorem secret_txt_not_rejected :
    (copy_file_enum secret_notes_image "/src".toList "/dst".toList
        ["*.txt".toList] ["secret*".toList] false).map
      (fun e => e.file_infos.map (fun it => it.src_path))
      = some ["/src/secret.txt".toList, "/src/notes.txt".toList] := by
  decide

/-! ## skip_empty_dir -/

/-- C8, as the claim states it, fails: with skip_empty_dir the directory
`full`, which holds `a.txt`, gets no work item either; the only work item is
the one of `full/a.txt`. -/
theorem full_dir_not_listed :
    (copy_file_enum empty_and_full "/src".toList "/dst".toList [] [] true).map
      (fun e => e.file_infos.map (fun it => it.src_path))
      = some ["/src/full/a.txt".toList] ∧
    ¬ ∃ e, copy_file_enum empty_and_full "/src".toList "/dst".toList [] [] true = some e ∧
      ∃ it ∈ e.file_infos, it.src_path = "/src/full".toList := by
  have h : (copy_file_enum empty_and_full "/src".toList "/dst".toList [] [] true).map
      (fun e => e.file_infos.map (fun it => it.src_path))
      = some ["/src/full/a.txt".toList] := by decide
  refine ⟨h, ?_⟩
  rintro ⟨e, he, it, hit, hsrc⟩
  rw [he] at h
  simp only [Option.map_some', Option.some.injEq] at h
  have hmem : it.src_path ∈ e.file_infos.map (fun it => it.src_path) :=
    List.mem_map_of_mem _ hit
  rw [h, hsrc] at hmem
  revert hmem
  decide

/-- C8, amended: with skip_empty_dir set the callback creates no work item for
any directory entry, whatever the directory holds and whatever the pattern
lists are; for the tree with the directories `empty` and `full` and the file
`full/a.txt` and no patterns, the enumeration produces the single work item of
`full/a.txt`, with destination `/dst/full/a.txt`. -/
theorem skip_empty_dir_skips_every_dir :
    (∀ (env : ddbase) (src_path dst_path : wstring) (includes excludes : List wstring)
        (st : enum_locals) (full_path : wstring),
      enum_callback env src_path dst_path includes excludes true st full_path true
        = ⟨st, false⟩) ∧
    copy_file_enum empty_and_full "/src".toList "/dst".toList [] [] true
      = some ⟨[⟨"/src/full/a.txt".toList, "/dst/full/a.txt".toList, 5⟩], 5, 1⟩ := by
  refine ⟨?_, by decide⟩
  intro env src_path dst_path includes excludes st full_path
  exact enum_callback_reject env src_path dst_path includes excludes true st full_path
    true (Or.inr (Or.inr rfl))

/-! ## Pattern lists -/

theorem replace_aux_single (x y : Char) (s : wstring) :
    replace_aux [x] [y] 0 s = s.map (fun c => if c = x then y else c) := by
  induction s with
  | nil => rfl
  | cons c s ih =>
    by_cases h : c = x
    · subst h
      simp [replace_aux, ih]
    · have h2 : ¬ x = c := fun e => h e.symm
      simp [replace_aux, ih, h, h2]

theorem map_replace_id (x y : Char) (s : wstring) (h : ∀ c ∈ s, c ≠ x) :
    s.map (fun c => if c = x then y else c) = s := by
  induction s with
  | nil => rfl
  | cons c s ih =>
    have h1 := h c (List.mem_cons_self _ _)
    simp only [List.map_cons, if_neg h1]
    rw [ih (fun d hd => h d (List.mem_cons_of_mem _ hd))]

theorem split_aux_blank_run (a : wstring) (h : ∀ c ∈ a, c ≠ ' ') (cur rest : wstring) :
    split_aux [' '] 0 cur (a ++ rest) = split_aux [' '] 0 (cur ++ a) rest := by
  induction a generalizing cur with
  | nil => simp
  | cons c a ih =>
    have h1 : ¬ ' ' = c := fun e => h c (List.mem_cons_self _ _) e.symm
    have h2 := ih (fun d hd => h d (List.mem_cons_of_mem _ hd)) (cur ++ [c])
    simp only [List.cons_append, split_aux, List.isPrefixOf, beq_iff_eq, h1,
      Bool.and_true, Bool.false_and, Bool.false_eq_true, and_false, if_false,
      decide_False, decide_eq_true_eq]
    show split_aux [' '] 0 (cur ++ [c]) (a ++ rest) = _
    rw [h2]
    simp

theorem ddstr_split_one (a : wstring) (ha : a ≠ []) (h : ∀ c ∈ a, c ≠ ' ') :
    ddstr_split a [' '] = [a] := by
  have := split_aux_blank_run a h [] []
  simp only [List.append_nil, List.nil_append] at this
  rw [ddstr_split, this]
  simp [split_aux, ha]

theorem ddstr_split_two (a b : wstring) (ha : a ≠ []) (hb : b ≠ [])
    (h1 : ∀ c ∈ a, c ≠ ' ') (h2 : ∀ c ∈ b, c ≠ ' ') :
    ddstr_split (a ++ ' ' :: b) [' '] = [a, b] := by
  have e1 := split_aux_blank_run a h1 [] (' ' :: b)
  have e2 := split_aux_blank_run b h2 [] []
  simp only [List.append_nil, List.nil_append] at e1 e2
  rw [ddstr_split, e1]
  simp only [split_aux, List.isPrefixOf, beq_self_eq_true, Bool.and_true, ne_eq,
    List.cons_ne_self, not_false_eq_true, and_self, if_true, ha, if_false,
    List.length_singleton, Nat.sub_self, List.cons_ne_nil, Bool.true_and]
  rw [e2]
  simp [split_aux, hb]

theorem push_filter_str_common (str : wstring) (vec : List wstring) :
    push_filter_str vec str = vec ++ ddstr_split
      ((str.map (fun c => if c = ',' then ' ' else c)).map
        (fun c => if c = ';' then ' ' else c)) [' '] := by
  simp only [push_filter_str, List.foldl, ddstr_replace]
  rw [show ",".toList = [','] from rfl, show ";".toList = [';'] from rfl,
    show " ".toList = [' '] from rfl, replace_aux_single, replace_aux_single]

theorem push_filter_str_one (a : wstring) (vec : List wstring) (ha : a ≠ [])
    (h : ∀ c ∈ a, c ≠ ',' ∧ c ≠ ';' ∧ c ≠ ' ') :
    push_filter_str vec a = vec ++ [a] := by
  rw [push_filter_str_common, map_replace_id _ _ a (fun c hc => (h c hc).1),
    map_replace_id _ _ a (fun c hc => (h c hc).2.1),
    ddstr_split_one a ha (fun c hc => (h c hc).2.2)]

theorem push_filter_str_two (a b : wstring) (sep : Char) (vec : List wstring)
    (hsep : sep = ',' ∨ sep = ';') (ha : a ≠ []) (hb : b ≠ [])
    (h1 : ∀ c ∈ a, c ≠ ',' ∧ c ≠ ';' ∧ c ≠ ' ')
    (h2 : ∀ c ∈ b, c ≠ ',' ∧ c ≠ ';' ∧ c ≠ ' ') :
    push_filter_str vec (a ++ sep :: b) = vec ++ [a, b] := by
  rw [push_filter_str_common]
  simp only [List.map_append, List.map_cons]
  rw [map_replace_id _ _ a (fun c hc => (h1 c hc).1),
    map_replace_id _ _ a (fun c hc => (h1 c hc).2.1),
    map_replace_id _ _ b (fun c hc => (h2 c hc).1),
    map_replace_id _ _ b (fun c hc => (h2 c hc).2.1)]
  have hs : (if (if sep = ',' then ' ' else sep) = ';' then ' '
      else (if sep = ',' then ' ' else sep)) = ' ' := by
    rcases hsep with rfl | rfl <;> decide
  rw [hs, ddstr_split_two a b ha hb (fun c hc => (h1 c hc).2.2)
    (fun c hc => (h2 c hc).2.2)]

/-- C9: for non-empty patterns a and b without `,`, `;` or whitespace and any
list v, push_filter_str on `a,b` and on `a;b` gives what push_filter_str on a
and then on b gives, v with a and b appended; and the command lines
`-include *.h,*.cpp` and `-include *.h *.cpp` lead process_cmds to the same
include list, `*.h` then `*.cpp`, and to the same run. -/
theorem push_filter_str_separators (a b : wstring) (v : List wstring)
    (ha : a ≠ []) (hb : b ≠ [])
    (hca : ∀ c ∈ a, c ≠ ',' ∧ c ≠ ';' ∧ c.isWhitespace = false)
    (hcb : ∀ c ∈ b, c ≠ ',' ∧ c ≠ ';' ∧ c.isWhitespace = false) :
    push_filter_str v (a ++ ',' :: b) = push_filter_str (push_filter_str v a) b ∧
    push_filter_str v (a ++ ';' :: b) = push_filter_str (push_filter_str v a) b ∧
    push_filter_str (push_filter_str v a) b = v ++ [a, b] ∧
    cmds_loop .top ⟨[], [], false, false⟩ ["-include".toList, "*.h,*.cpp".toList]
      = some ⟨["*.h".toList, "*.cpp".toList], [], false, false⟩ ∧
    cmds_loop .top ⟨[], [], false, false⟩
        ["-include".toList, "*.h".toList, "*.cpp".toList]
      = some ⟨["*.h".toList, "*.cpp".toList], [], false, false⟩ ∧
    (∀ (env : ddbase) (exe src_path dst_path : wstring),
      process_cmds env [exe, src_path, dst_path, "-include".toList, "*.h,*.cpp".toList]
        = process_cmds env
          [exe, src_path, dst_path, "-include".toList, "*.h".toList, "*.cpp".toList]) := by
  have hblank : ∀ c : Char, c.isWhitespace = false → c ≠ ' ' := by
    intro c hc e
    rw [e] at hc
    revert hc
    decide
  have h1 : ∀ c ∈ a, c ≠ ',' ∧ c ≠ ';' ∧ c ≠ ' ' :=
    fun c hc => ⟨(hca c hc).1, (hca c hc).2.1, hblank c (hca c hc).2.2⟩
  have h2 : ∀ c ∈ b, c ≠ ',' ∧ c ≠ ';' ∧ c ≠ ' ' :=
    fun c hc => ⟨(hcb c hc).1, (hcb c hc).2.1, hblank c (hcb c hc).2.2⟩
  have hab : push_filter_str (push_filter_str v a) b = v ++ [a, b] := by
    rw [push_filter_str_one a v ha h1, push_filter_str_one b _ hb h2]
    simp
  have hl1 : cmds_loop .top ⟨[], [], false, false⟩
      ["-include".toList, "*.h,*.cpp".toList]
      = some ⟨["*.h".toList, "*.cpp".toList], [], false, false⟩ := by decide
  have hl2 : cmds_loop .top ⟨[], [], false, false⟩
      ["-include".toList, "*.h".toList, "*.cpp".toList]
      = some ⟨["*.h".toList, "*.cpp".toList], [], false, false⟩ := by decide
  refine ⟨?_, ?_, hab, hl1, hl2, ?_⟩
  · rw [hab]
    exact push_filter_str_two a b ',' v (Or.inl rfl) ha hb h1 h2
  · rw [hab]
    exact push_filter_str_two a b ';' v (Or.inr rfl) ha hb h1 h2
  · intro env exe src_path dst_path
    unfold process_cmds
    simp only [hl1, hl2]

theorem push_filter_str_separators_witness :
    push_filter_str ["*.c".toList] ("*.h".toList ++ ',' :: "*.cpp".toList)
      = push_filter_str (push_filter_str ["*.c".toList] "*.h".toList) "*.cpp".toList ∧
    push_filter_str ["*.c".toList] ("*.h".toList ++ ';' :: "*.cpp".toList)
      = push_filter_str (push_filter_str ["*.c".toList] "*.h".toList) "*.cpp".toList ∧
    push_filter_str (push_filter_str ["*.c".toList] "*.h".toList) "*.cpp".toList
      = ["*.c".toList] ++ ["*.h".toList, "*.cpp".toList] :=
  have h := push_filter_str_separators "*.h".toList "*.cpp".toList ["*.c".toList]
    (by decide) (by decide) (by decide) (by decide)
  ⟨h.1, h.2.1, h.2.2.1⟩

/-! ## The wildcard patterns of the example, on full paths -/

theorem any_suffix_of_nil (k : wstring → Bool) (h : k [] = true) (s : wstring) :
    any_suffix k s = true := by
  induction s with
  | nil => simpa [any_suffix] using h
  | cons c s ih => simp [any_suffix, ih]

theorem any_suffix_append (k : wstring → Bool) (s t : wstring)
    (h : any_suffix k t = true) : any_suffix k (s ++ t) = true := by
  induction s with
  | nil => simpa using h
  | cons c s ih =>
    show any_suffix k (c :: (s ++ t)) = true
    simp [any_suffix, ih]

theorem any_suffix_append_false (k : wstring → Bool) (n : Nat) (s t : wstring)
    (hk : ∀ u, k u = true → u.length = n) (hn : n < t.length)
    (h : any_suffix k t = false) : any_suffix k (s ++ t) = false := by
  induction s with
  | nil => simpa using h
  | cons c s ih =>
    show any_suffix k (c :: (s ++ t)) = false
    have hc : k (c :: (s ++ t)) = false := by
      cases hv : k (c :: (s ++ t))
      · rfl
      · have := hk _ hv
        simp only [List.length_cons, List.length_append] at this
        omega
    simp [any_suffix, ih, hc]

theorem wildcard_pat_literal (lit : wstring) (h : ∀ c ∈ lit, c ≠ '*' ∧ c ≠ '?')
    (s : wstring) : wildcard_pat lit s = true → s = lit := by
  induction lit generalizing s with
  | nil =>
    cases s <;> simp [wildcard_pat]
  | cons p ps ih =>
    have hp := h p (List.mem_cons_self _ _)
    cases s with
    | nil => simp [wildcard_pat, hp.1]
    | cons c cs =>
      simp only [wildcard_pat, hp.1, hp.2, if_false, decide_False, Bool.false_or,
        Bool.and_eq_true, decide_eq_true_eq, List.cons.injEq]
      rintro ⟨h1, h2⟩
      exact ⟨h1, ih (fun d hd => h d (List.mem_cons_of_mem _ hd)) cs h2⟩

theorem wildcard_pat_literal_star (lit : wstring) (h : ∀ c ∈ lit, c ≠ '*' ∧ c ≠ '?')
    (s : wstring) : wildcard_pat (lit ++ ['*']) s = lit.isPrefixOf s := by
  induction lit generalizing s with
  | nil =>
    have h1 : wildcard_pat ['*'] s = true := by
      simp only [wildcard_pat, if_true]
      exact any_suffix_of_nil _ (by simp [wildcard_pat]) s
    simpa using h1
  | cons p ps ih =>
    have hp := h p (List.mem_cons_self _ _)
    have ih2 := ih (fun d hd => h d (List.mem_cons_of_mem _ hd))
    show wildcard_pat (p :: (ps ++ ['*'])) s = _
    cases s with
    | nil => simp [wildcard_pat, hp.1]
    | cons c cs =>
      simp only [wildcard_pat, hp.1, hp.2, if_false, decide_False, Bool.false_or,
        List.isPrefixOf, ih2]
      by_cases hcp : c = p
      · subst hcp
        simp
      · have : ¬ p = c := fun e => hcp e.symm
        simp [hcp, this]

theorem isPrefixOf_before_sep (lit : wstring) (sep : Char) (h : sep ∉ lit)
    (s x : wstring) : lit.isPrefixOf (s ++ sep :: x) = lit.isPrefixOf (s ++ [sep]) := by
  induction lit generalizing s with
  | nil => simp
  | cons p ps ih =>
    have hp : ¬ p = sep := fun e => h (e ▸ List.mem_cons_self _ _)
    have hps : sep ∉ ps := fun e => h (List.mem_cons_of_mem _ e)
    cases s with
    | nil =>
      have hb : (p == sep) = false := by simpa using hp
      simp [List.isPrefixOf, hb]
    | cons c cs =>
      show (p :: ps).isPrefixOf (c :: (cs ++ sep :: x))
        = (p :: ps).isPrefixOf (c :: (cs ++ [sep]))
      simp only [List.isPrefixOf, ih hps cs]

theorem txt_pattern_secret (s : wstring) (sep : Char) :
    ddstr_strwildcard (s ++ sep :: "secret.txt".toList) "*.txt".toList = true := by
  show wildcard_pat ('*' :: ".txt".toList) _ = true
  simp only [wildcard_pat, if_true]
  rw [show s ++ sep :: "secret.txt".toList = (s ++ [sep]) ++ "secret.txt".toList by simp]
  exact any_suffix_append _ _ _ (by decide)

theorem txt_pattern_notes (s : wstring) (sep : Char) :
    ddstr_strwildcard (s ++ sep :: "notes.txt".toList) "*.txt".toList = true := by
  show wildcard_pat ('*' :: ".txt".toList) _ = true
  simp only [wildcard_pat, if_true]
  rw [show s ++ sep :: "notes.txt".toList = (s ++ [sep]) ++ "notes.txt".toList by simp]
  exact any_suffix_append _ _ _ (by decide)

theorem txt_pattern_image (s : wstring) (sep : Char) :
    ddstr_strwildcard (s ++ sep :: "image.png".toList) "*.txt".toList = false := by
  show wildcard_pat ('*' :: ".txt".toList) _ = false
  simp only [wildcard_pat, if_true]
  rw [show s ++ sep :: "image.png".toList = (s ++ [sep]) ++ "image.png".toList by simp]
  refine any_suffix_append_false _ 4 _ _ (fun u hu => ?_) (by decide) (by decide)
  rw [wildcard_pat_literal ".txt".toList (by decide) u hu]
  rfl

theorem secret_pattern (s x : wstring) (sep : Char) (h : sep ∉ "secret".toList) :
    ddstr_strwildcard (s ++ sep :: x) "secret*".toList
      = "secret".toList.isPrefixOf (s ++ [sep]) := by
  show wildcard_pat ("secret".toList ++ ['*']) _ = _
  rw [wildcard_pat_literal_star "secret".toList (by decide), isPrefixOf_before_sep _ _ h]

theorem enum_callback_accept_file (env : ddbase) (src_path dst_path : wstring)
    (includes excludes : List wstring) (skip_empty_dir : Bool)
    (st : enum_locals) (full_path rest : wstring)
    (h1 : (!includes.isEmpty && !str_match env full_path includes) = false)
    (h2 : (!excludes.isEmpty && str_match env full_path excludes) = false)
    (hs : substr full_path (src_path.length + 1) = some rest) :
    enum_callback env src_path dst_path includes excludes skip_empty_dir st full_path false
      = ⟨⟨st.file_infos ++ [⟨full_path, env.join dst_path rest, env.file_size full_path⟩],
          s64_add st.all_size (env.file_size full_path),
          s64_add st.file_count 1⟩, false⟩ := by
  unfold enum_callback
  rw [h1, h2, hs]
  rfl

theorem substr_after_root (S R : wstring) (sep : Char) :
    substr (S ++ sep :: R) (S.length + 1) = some R := by
  unfold substr
  rw [if_pos (by simp)]
  congr 1
  rw [show S ++ sep :: R = (S ++ [sep]) ++ R by simp]
  exact List.drop_left' (by simp)

/-- C7, amended: with include `*.txt` and exclude `secret*`, both compared
with the full path of an entry (source root, separator, name), the enumeration
of a source directory holding `secret.txt`, `notes.txt` and `image.png`
rejects `image.png` and treats `secret.txt` and `notes.txt` alike: both get a
work item, unless the source root with its separator itself begins with
`secret`, when both are rejected. -/
theorem include_exclude_on_full_path (env : ddbase) (S D : wstring) (sep : Char)
    (hw : env.strwildcard = ddstr_strwildcard) (hsep : sep ∉ "secret".toList)
    (hdir : env.is_dir S = true)
    (hents : env.enum_dir S =
      [(S ++ sep :: "secret.txt".toList, false), (S ++ sep :: "notes.txt".toList, false),
        (S ++ sep :: "image.png".toList, false)]) :
    (copy_file_enum env S D ["*.txt".toList] ["secret*".toList] false).map
      (fun e => e.file_infos.map (fun it => it.src_path))
      = some (if "secret".toList.isPrefixOf (S ++ [sep]) = true then []
          else [S ++ sep :: "secret.txt".toList, S ++ sep :: "notes.txt".toList]) := by
  have hi1 : str_match env (S ++ sep :: "secret.txt".toList) ["*.txt".toList] = true := by
    simp only [str_match, hw, txt_pattern_secret]
    rfl
  have hi2 : str_match env (S ++ sep :: "notes.txt".toList) ["*.txt".toList] = true := by
    simp only [str_match, hw, txt_pattern_notes]
    rfl
  have hi3 : str_match env (S ++ sep :: "image.png".toList) ["*.txt".toList] = false := by
    simp only [str_match, hw, txt_pattern_image]
    rfl
  have he : ∀ x, str_match env (S ++ sep :: x) ["secret*".toList]
      = "secret".toList.isPrefixOf (S ++ [sep]) := by
    intro x
    simp only [str_match, hw, secret_pattern S x sep hsep]
    cases "secret".toList.isPrefixOf (S ++ [sep]) <;> rfl
  have h3 : ∀ st, enum_callback env S D ["*.txt".toList] ["secret*".toList] false st
      (S ++ sep :: "image.png".toList) false = ⟨st, false⟩ := fun st =>
    enum_callback_reject env S D _ _ false st _ false (Or.inl (by rw [hi3]; rfl))
  unfold copy_file_enum
  rw [if_pos hdir, hents]
  by_cases hP : "secret".toList.isPrefixOf (S ++ [sep]) = true
  · have h1 : ∀ st, enum_callback env S D ["*.txt".toList] ["secret*".toList] false st
        (S ++ sep :: "secret.txt".toList) false = ⟨st, false⟩ := fun st =>
      enum_callback_reject env S D _ _ false st _ false
        (Or.inr (Or.inl (by rw [he, hP]; rfl)))
    have h2 : ∀ st, enum_callback env S D ["*.txt".toList] ["secret*".toList] false st
        (S ++ sep :: "notes.txt".toList) false = ⟨st, false⟩ := fun st =>
      enum_callback_reject env S D _ _ false st _ false
        (Or.inr (Or.inl (by rw [he, hP]; rfl)))
    simp only [enum_dir_visit, h1, h2, h3, hP, if_true, Bool.false_eq_true, if_false,
      Option.map_some', List.map_nil]
  · have hP2 : "secret".toList.isPrefixOf (S ++ [sep]) = false :=
      (Bool.not_eq_true _).mp hP
    have h1 := fun st => enum_callback_accept_file env S D ["*.txt".toList]
      ["secret*".toList] false st (S ++ sep :: "secret.txt".toList) "secret.txt".toList
      (by rw [hi1]; rfl) (by rw [he, hP2]; rfl) (substr_after_root _ _ _)
    have h2 := fun st => enum_callback_accept_file env S D ["*.txt".toList]
      ["secret*".toList] false st (S ++ sep :: "notes.txt".toList) "notes.txt".toList
      (by rw [hi2]; rfl) (by rw [he, hP2]; rfl) (substr_after_root _ _ _)
    simp only [enum_dir_visit, h1, h2, h3, hP2, Bool.false_eq_true, if_false,
      Option.map_some', List.nil_append, List.map_cons, List.map_nil,
      List.cons_append]

theorem include_exclude_on_full_path_witness :
    (copy_file_enum secret_notes_image "/src".toList "/dst".toList
        ["*.txt".toList] ["secret*".toList] false).map
      (fun e => e.file_infos.map (fun it => it.src_path))
      = some (if "secret".toList.isPrefixOf ("/src".toList ++ ['/']) = true then []
          else ["/src".toList ++ '/' :: "secret.txt".toList,
            "/src".toList ++ '/' :: "notes.txt".toList]) :=
  include_exclude_on_full_path secret_notes_image "/src".toList "/dst".toList '/'
    rfl (by decide) (by decide) (by decide)

end NSP_DD
